import Mathlib

/-!
Verification development for the `alt` configuration-language interpreter
(a small record-oriented data language with host-dispatched `@`/`#` calls).

The development shallowly embeds the interpreter pipeline:

* the lexer (`tokenize` and its helpers `skip_spaces`, `lex_number`,
  `lex_ident`, `lex_string`), with Rust panics (`unimplemented!`,
  `ilog10` on a non-positive argument) modelled as `Option.none`;
* the recursive-descent parser (`parse_value`, `parse_record`,
  `parse_multiple_values`, `parse_multiple_records`, `parse_call`,
  `parse`), written in a fuelled style (`none` = fuel exhausted or a
  `todo!` panic) over an explicit token list standing for the
  `Peekable` iterator;
* the AST (`Value`, `Record`, `Call`, `RecordOrCall`, `Typed`);
* the evaluator `eval` (the default method of the `Evaluator` trait),
  with the trait's two `&mut self` dispatch methods modelled as a
  `Host` record of explicit state-passing functions.

Machine `i32` arithmetic is modelled with `Int` plus explicit
two's-complement wrapping; `f32` values are modelled as exact rationals
(the ideal value of the arithmetic expression the code evaluates),
which is faithful for every property proved here since the values
compared differ by far more than any `f32` rounding error.
-/

namespace Alt

/-- Two's-complement wrap into the `i32` range, modelling Rust release-mode
`i32` arithmetic (`x *= 10; x += digit` in `lex_number`). -/
def wrap32 (z : Int) : Int := (z + 2 ^ 31) % 2 ^ 32 - 2 ^ 31

/-- Fuelled base-10 logarithm on `Nat`; with fuel at least `n` it computes
the floor of `log10 n` for positive `n`. -/
def ilog10Aux : Nat → Nat → Nat
  | 0, _ => 0
  | fuel + 1, n => if n < 10 then 0 else ilog10Aux fuel (n / 10) + 1

/-- Models Rust `u32::ilog10` on positive arguments (structurally
computable). -/
def ilog10 (n : Nat) : Nat := ilog10Aux n n

/-- Models `i32::checked_ilog10`: `none` exactly on non-positive inputs. -/
def checkedIlog10 (z : Int) : Option Nat :=
  if z ≤ 0 then none else some (ilog10 z.toNat)

/-- Byte-offset/character pairs, modelling Rust `str::char_indices`
(offsets advance by the UTF-8 size of each character). -/
def charIndices : Nat → List Char → List (Nat × Char)
  | _, [] => []
  | o, c :: cs => (o, c) :: charIndices (o + c.utf8Size) cs

/-- A half-open byte-offset span into the source, modelling `FilePos`.
Rust's field `end` is rendered as `stop` (`end` is a Lean keyword). -/
structure FilePos where
  start : Nat
  stop : Nat
  deriving DecidableEq, Repr

/-- Token kinds, modelling `lexer::TokenKind`.  The two bracket kinds are
not present in the `TokenKind` enum under `src/` even though the parser
matches on them; they are modelled from the spec (single-character
symbols `[` and `]` map 1:1 to a token kind). -/
inductive TokenKind where
  | ID (s : String)
  | Number (n : Int)
  | String (s : String)
  | Separator
  | Assign
  | LeftBrace
  | RightBrace
  /-- Modelled from the spec: `[` maps 1:1 to a token kind (missing from
  the `TokenKind` enum under `src/`, but matched by the parser). -/
  | LeftBracket
  /-- Modelled from the spec: `]` maps 1:1 to a token kind (missing from
  the `TokenKind` enum under `src/`, but matched by the parser). -/
  | RightBracket
  | Dot
  | ValueCall
  | RecordCall
  | EndOfInput
  deriving DecidableEq, Repr

/-- A positioned token, modelling `lexer::Token`; `Token::default()` has
kind `EndOfInput` and the zero span. -/
structure Token where
  kind : TokenKind
  pos : FilePos
  deriving DecidableEq, Repr

/-- Models `skip_spaces`: drop leading whitespace other than `\n`. -/
def skip_spaces : List (Nat × Char) → List (Nat × Char)
  | [] => []
  | (p, c) :: rest =>
    if c.isWhitespace && c ≠ '\n' then skip_spaces rest else (p, c) :: rest

/-- The loop of `lex_number`.  Returns `none` where Rust panics: at end of
input the code computes the span end as `start + x.ilog10() + 1`, and
`i32::ilog10` panics when the accumulator `x` is not positive (e.g. for
the input `"0"`). -/
def lexNumberLoop (x : Int) (first : Bool) (startPos : Nat) :
    List (Nat × Char) → Option Token × List (Nat × Char)
  | [] =>
    if 0 < x then
      (some ⟨.Number x, ⟨startPos, startPos + ilog10 x.toNat + 1⟩⟩, [])
    else
      (none, [])
  | (p, c) :: rest =>
    let s0 := if first then p else startPos
    if c.isDigit then
      lexNumberLoop (wrap32 (x * 10 + ((c.toNat : Int) - 48))) false s0 rest
    else
      (some ⟨.Number x, ⟨s0, p⟩⟩, (p, c) :: rest)

/-- Models `lex_number`. -/
def lex_number (it : List (Nat × Char)) : Option Token × List (Nat × Char) :=
  lexNumberLoop 0 true 0 it

/-- The loop of `lex_ident`: a maximal run of alphanumerics, `-`, `_`. -/
def lexIdentLoop (acc : String) (first : Bool) (startPos : Nat) :
    List (Nat × Char) → Token × List (Nat × Char)
  | [] => (⟨.ID acc, ⟨startPos, startPos + acc.utf8ByteSize⟩⟩, [])
  | (p, c) :: rest =>
    let s0 := if first then p else startPos
    if c.isAlphanum || c = '-' || c = '_' then
      lexIdentLoop (acc.push c) false s0 rest
    else
      (⟨.ID acc, ⟨s0, p⟩⟩, (p, c) :: rest)

/-- Models `lex_ident`. -/
def lex_ident (it : List (Nat × Char)) : Token × List (Nat × Char) :=
  lexIdentLoop "" true 0 it

/-- The scanning loop of `lex_string`.  On an unterminated string the Rust
loop exhausts the iterator and the token keeps its `Default` kind
(`EndOfInput`) and default span end `0`. -/
def lexStringLoop (acc : String) (startPos : Nat) :
    List (Nat × Char) → Token × List (Nat × Char)
  | [] => (⟨.EndOfInput, ⟨startPos, 0⟩⟩, [])
  | (p, c) :: rest =>
    if c = '\x22' then (⟨.String acc, ⟨startPos, p⟩⟩, rest)
    else lexStringLoop (acc.push c) startPos rest

/-- Models `lex_string`: expects a leading `"`, otherwise returns the
default token unchanged (unreachable from `tokenize`). -/
def lex_string (it : List (Nat × Char)) : Token × List (Nat × Char) :=
  match it with
  | (p, c) :: rest =>
    if c = '\x22' then lexStringLoop "" p rest
    else (⟨.EndOfInput, ⟨0, 0⟩⟩, it)
  | [] => (⟨.EndOfInput, ⟨0, 0⟩⟩, [])

/-- The loop of `tokenize`.  `none` models a Rust panic: the catch-all
`unimplemented!` arm for an unrecognized character, or the `ilog10`
panic inside `lex_number`.  The `[` and `]` arms are modelled from the
spec (each single-character symbol maps 1:1 to a token kind with a
one-byte span); they are absent from `tokenize` under `src/` although
the parser consumes the corresponding token kinds. -/
def tokenizeLoop (totalLen : Nat) : Nat → List (Nat × Char) → List Token →
    Option (List Token)
  | 0, _, _ => none
  | fuel + 1, it, acc =>
    match skip_spaces it with
    | [] => some (acc ++ [⟨.EndOfInput, ⟨totalLen, totalLen⟩⟩])
    | (p, c) :: rest =>
      if c = ';' || c = '\n' then
        tokenizeLoop totalLen fuel rest (acc ++ [⟨.Separator, ⟨p, p + 1⟩⟩])
      else if c = '=' then
        tokenizeLoop totalLen fuel rest (acc ++ [⟨.Assign, ⟨p, p + 1⟩⟩])
      else if c = '\x7b' then
        tokenizeLoop totalLen fuel rest (acc ++ [⟨.LeftBrace, ⟨p, p + 1⟩⟩])
      else if c = '\x7d' then
        tokenizeLoop totalLen fuel rest (acc ++ [⟨.RightBrace, ⟨p, p + 1⟩⟩])
      else if c = '\x22' then
        let (t, rest') := lex_string ((p, c) :: rest)
        tokenizeLoop totalLen fuel rest' (acc ++ [t])
      else if c = '.' then
        tokenizeLoop totalLen fuel rest (acc ++ [⟨.Dot, ⟨p, p + 1⟩⟩])
      else if c = '@' then
        tokenizeLoop totalLen fuel rest (acc ++ [⟨.ValueCall, ⟨p, p + 1⟩⟩])
      else if c = '#' then
        tokenizeLoop totalLen fuel rest (acc ++ [⟨.RecordCall, ⟨p, p + 1⟩⟩])
      else if c = '[' then
        tokenizeLoop totalLen fuel rest (acc ++ [⟨.LeftBracket, ⟨p, p + 1⟩⟩])
      else if c = ']' then
        tokenizeLoop totalLen fuel rest (acc ++ [⟨.RightBracket, ⟨p, p + 1⟩⟩])
      else if c.isDigit then
        match lex_number ((p, c) :: rest) with
        | (none, _) => none
        | (some t, rest') => tokenizeLoop totalLen fuel rest' (acc ++ [t])
      else if c.isAlphanum then
        let (t, rest') := lex_ident ((p, c) :: rest)
        tokenizeLoop totalLen fuel rest' (acc ++ [t])
      else
        none

/-- Models `tokenize`: `none` stands for a Rust panic. -/
def tokenize (s : String) : Option (List Token) :=
  tokenizeLoop s.utf8ByteSize (s.data.length + 1) (charIndices 0 s.data) []

mutual

/-- The AST value tree, modelling `ast::Value`.  `Number` holds an `i32`
(modelled as `Int`), `Float` an `f32` (modelled as the exact rational
value of the expression the parser computes). -/
inductive Value where
  | Number (n : Int)
  | Float (q : Rat)
  | String (s : String)
  | ObjectWithCalls (entries : List RecordOrCall)
  | Object (records : List Record)
  | Array (values : List Value)
  | Call (c : Call)
  | Typed (t : Typed)

/-- A named binding, modelling `ast::Record`. -/
inductive Record where
  | mk (id : String) (value : Value)

/-- A pending invocation, modelling `ast::Call`. -/
inductive Call where
  | mk (function : String) (value : Value)

/-- Tagged union of a record or a call, modelling `ast::RecordOrCall`. -/
inductive RecordOrCall where
  | record (r : Record)
  | call (c : Call)

/-- A transparent semantic tag, modelling `ast::Typed`. -/
inductive Typed where
  | mk (kind : String) (value : Value)

end

/-- Field accessor mirroring `Record.id`. -/
def Record.id : Record → String
  | .mk i _ => i

/-- Field accessor mirroring `Record.value`. -/
def Record.value : Record → Value
  | .mk _ v => v

/-- Field accessor mirroring `Call.function`. -/
def Call.function : Call → String
  | .mk f _ => f

/-- Field accessor mirroring `Call.value`. -/
def Call.value : Call → Value
  | .mk _ v => v

/-- Parse error kinds, modelling `parser::ErrorTypes`. -/
inductive ErrorTypes where
  | EndOfInput
  | ExpectedIdentifier
  | ExpectedValue
  | ExpectedAssign
  | ExpectedNumber
  deriving DecidableEq, Repr

/-- A positioned parse error, modelling `parser::Error`. -/
structure ParseError where
  error : ErrorTypes
  pos : FilePos
  deriving DecidableEq, Repr

/-- The number of decimal digits `parse_value` attributes to the
fractional part: `n.checked_ilog10().unwrap_or(0) + 1`.  Note that the
count is computed from the numeric value of the fractional token, so
leading zeros typed in the source do not contribute. -/
def fracDecimals (n : Int) : Nat := ((checkedIlog10 n).getD 0) + 1

/-- The float value `parse_value` builds from integer part `num` and
fractional token value `n`:
`10f32.powi(-decimals).mul_add(n as f32, num as f32)`, modelled as the
exact rational `num + n / 10 ^ decimals`. -/
def floatValue (num n : Int) : Rat :=
  (num : Rat) + (n : Rat) / (10 : Rat) ^ fracDecimals n

mutual

/-- Models `parse_value`.  The functions of the parser take the remaining
token list in place of the `Peekable` iterator and return the remainder;
the outer `Option` is fuel/panic (`none` only on fuel exhaustion or on
the `todo!` arm of `parse_multiple_records`). -/
def parse_value : Nat → List Token → Option (Except ParseError (Value × List Token))
  | 0, _ => none
  | _ + 1, [] => some (.error ⟨.EndOfInput, ⟨0, 0⟩⟩)
  | fuel + 1, t :: rest =>
    match t.kind with
    | .Number num =>
      -- `it.next()`; then peek for a `.` starting a float literal.
      match rest with
      | t2 :: rest2 =>
        if t2.kind = .Dot then
          match rest2 with
          | t3 :: rest3 =>
            match t3.kind with
            | .Number n =>
              -- the fractional token is peeked but never consumed
              some (.ok (.Float (floatValue num n), t3 :: rest3))
            | _ => some (.error ⟨.ExpectedNumber, t3.pos⟩)
          | [] => some (.error ⟨.EndOfInput, t2.pos⟩)
        else
          some (.ok (.Number num, rest))
      | [] => some (.ok (.Number num, []))
    | .String s =>
      -- the string token is peeked but not consumed
      some (.ok (.String s, t :: rest))
    | .LeftBrace =>
      match parse_multiple_records fuel rest .RightBrace with
      | none => none
      | some (.error e) => some (.error e)
      | some (.ok (records, rest')) => some (.ok (.ObjectWithCalls records, rest'))
    | .LeftBracket =>
      match parse_multiple_values fuel rest with
      | none => none
      | some (.error e) => some (.error e)
      | some (.ok (values, rest')) => some (.ok (.Array values, rest'))
    | .ValueCall =>
      match parse_call fuel rest with
      | none => none
      | some (.error e) => some (.error e)
      | some (.ok (c, rest')) => some (.ok (.Call c, rest'))
    | _ => some (.error ⟨.ExpectedValue, t.pos⟩)

/-- Models `parse_record`. -/
def parse_record : Nat → List Token → Option (Except ParseError (RecordOrCall × List Token))
  | 0, _ => none
  | _ + 1, [] => some (.error ⟨.EndOfInput, ⟨0, 0⟩⟩)
  | fuel + 1, t :: rest =>
    match t.kind with
    | .ID id =>
      match rest with
      | t2 :: rest2 =>
        if t2.kind = .Assign then
          match parse_value fuel rest2 with
          | none => none
          | some (.error e) => some (.error e)
          | some (.ok (v, rest')) => some (.ok (.record (.mk id v), rest'))
        else
          some (.error ⟨.ExpectedAssign, t2.pos⟩)
      | [] => some (.error ⟨.EndOfInput, t.pos⟩)
    | _ => some (.error ⟨.ExpectedIdentifier, t.pos⟩)

/-- Models `parse_multiple_values` (the array-body loop).  `break`
leaves the terminating token unconsumed; after a string element the
loop performs an extra `it.next()` (modelled by `List.drop 1`) because
`parse_value` does not consume string tokens. -/
def parse_multiple_values : Nat → List Token → Option (Except ParseError (List Value × List Token))
  | 0, _ => none
  | _ + 1, [] => some (.error ⟨.EndOfInput, ⟨0, 0⟩⟩)
  | fuel + 1, t :: rest =>
    match t.kind with
    | .RightBracket => some (.ok ([], t :: rest))
    | .EndOfInput => some (.ok ([], t :: rest))
    | .String _ =>
      match parse_value fuel (t :: rest) with
      | none => none
      | some (.error e) => some (.error e)
      | some (.ok (v, rest')) =>
        match parse_multiple_values fuel (rest'.drop 1) with
        | none => none
        | some (.error e) => some (.error e)
        | some (.ok (vs, rest'')) => some (.ok (v :: vs, rest''))
    | _ =>
      match parse_value fuel (t :: rest) with
      | none => none
      | some (.error e) => some (.error e)
      | some (.ok (v, rest')) =>
        match parse_multiple_values fuel rest' with
        | none => none
        | some (.error e) => some (.error e)
        | some (.ok (vs, rest'')) => some (.ok (v :: vs, rest''))

/-- Models `parse_multiple_records` (the object-body loop).  Each loop
iteration ends with an unconditional `it.next()` (modelled by
`List.drop 1`); the terminator check `*end == token.kind` is reached
only for tokens not matching the earlier `ID`/`RecordCall`/`Separator`
arms, and `break` leaves the terminator unconsumed.  The catch-all arm
is `todo!()`, i.e. a panic, modelled as `none`. -/
def parse_multiple_records : Nat → List Token → TokenKind → Option (Except ParseError (List RecordOrCall × List Token))
  | 0, _, _ => none
  | _ + 1, [], _ => some (.error ⟨.EndOfInput, ⟨0, 0⟩⟩)
  | fuel + 1, t :: rest, stop =>
    match t.kind with
    | .ID _ =>
      match parse_record fuel (t :: rest) with
      | none => none
      | some (.error e) => some (.error e)
      | some (.ok (roc, rest')) =>
        match parse_multiple_records fuel (rest'.drop 1) stop with
        | none => none
        | some (.error e) => some (.error e)
        | some (.ok (rocs, rest'')) => some (.ok (roc :: rocs, rest''))
    | .RecordCall =>
      match parse_call fuel rest with
      | none => none
      | some (.error e) => some (.error e)
      | some (.ok (c, rest')) =>
        match parse_multiple_records fuel (rest'.drop 1) stop with
        | none => none
        | some (.error e) => some (.error e)
        | some (.ok (rocs, rest'')) => some (.ok (.call c :: rocs, rest''))
    | .Separator => parse_multiple_records fuel rest stop
    | k =>
      if k = stop then some (.ok ([], t :: rest))
      else
        match k with
        | .EndOfInput => some (.error ⟨.EndOfInput, ⟨0, 0⟩⟩)
        | _ => none

/-- Models `parse_call`. -/
def parse_call : Nat → List Token → Option (Except ParseError (Call × List Token))
  | 0, _ => none
  | _ + 1, [] => some (.error ⟨.EndOfInput, ⟨0, 0⟩⟩)
  | fuel + 1, t :: rest =>
    match t.kind with
    | .ID f =>
      match parse_value fuel rest with
      | none => none
      | some (.error e) => some (.error e)
      | some (.ok (v, rest')) => some (.ok (.mk f v, rest'))
    | _ => some (.error ⟨.ExpectedIdentifier, t.pos⟩)

end

/-- Models the top-level `parse`: the whole document is an object body
terminated by `EndOfInput`.  The fuel is ample for the token list. -/
def parse (tokens : List Token) : Option (Except ParseError Value) :=
  match parse_multiple_records (4 * tokens.length + 16) tokens .EndOfInput with
  | none => none
  | some (.error e) => some (.error e)
  | some (.ok (records, _)) => some (.ok (.ObjectWithCalls records))

/-- Evaluation errors, modelling `eval::Error`; the boxed
`dyn std::error::Error` payload of the `Eval` variant is abstracted by
the type parameter `ε`. -/
inductive EvalError (ε : Type) where
  | InvalidFunction
  | Eval (e : ε)

/-- The host-supplied dispatch capabilities of the `Evaluator` trait.
Rust's `&mut self` receiver is modelled by explicit state passing: each
capability consumes a state `σ` and returns the updated state. -/
structure Host (σ ε : Type) where
  vf : σ → Call → Except (EvalError ε) (Value × σ)
  rf : σ → Call → Except (EvalError ε) (Option Record × σ)

mutual

/-- Models the default method `Evaluator::eval`: a single stateful tree
walk.  `Float`, `Number`, `String` and `Object` return `root.clone()`
(in particular the evaluator does not recurse into a plain `Object`).
The `Array` arm is not present in the `match` under `src/`; it is
modelled from the spec: evaluate each element in source order, the
result preserves order and length. -/
def eval (h : Host σ ε) (s : σ) : Value → Except (EvalError ε) (Value × σ)
  | .Number n => .ok (.Number n, s)
  | .Float q => .ok (.Float q, s)
  | .String st => .ok (.String st, s)
  | .Object rs => .ok (.Object rs, s)
  | .Call (.mk f v) =>
    match eval h s v with
    | .error e => .error e
    | .ok (w, s1) => h.vf s1 (.mk f w)
  | .ObjectWithCalls entries =>
    match evalEntries h s entries with
    | .error e => .error e
    | .ok (rs, s1) => .ok (.Object rs, s1)
  | .Typed (.mk kind v) =>
    match eval h s v with
    | .error e => .error e
    | .ok (w, s1) => .ok (.Typed (.mk kind w), s1)
  | .Array vs =>
    match evalValues h s vs with
    | .error e => .error e
    | .ok (ws, s1) => .ok (.Array ws, s1)

/-- The object-body loop of `Evaluator::eval`: plain records are
re-emitted with their value evaluated; record-calls evaluate the
argument, invoke the record capability, splice a returned record and
drop the entry on `None`. -/
def evalEntries (h : Host σ ε) (s : σ) :
    List RecordOrCall → Except (EvalError ε) (List Record × σ)
  | [] => .ok ([], s)
  | .record (.mk id v) :: rest =>
    match eval h s v with
    | .error e => .error e
    | .ok (w, s1) =>
      match evalEntries h s1 rest with
      | .error e => .error e
      | .ok (rs, s2) => .ok (.mk id w :: rs, s2)
  | .call (.mk f v) :: rest =>
    match eval h s v with
    | .error e => .error e
    | .ok (w, s1) =>
      match h.rf s1 (.mk f w) with
      | .error e => .error e
      | .ok (none, s2) => evalEntries h s2 rest
      | .ok (some r, s2) =>
        match evalEntries h s2 rest with
        | .error e => .error e
        | .ok (rs, s3) => .ok (r :: rs, s3)

/-- Modelled from the spec: the element loop of the `Array` arm
(`Array[v...]`: evaluate each element in source order). -/
def evalValues (h : Host σ ε) (s : σ) :
    List Value → Except (EvalError ε) (List Value × σ)
  | [] => .ok ([], s)
  | v :: rest =>
    match eval h s v with
    | .error e => .error e
    | .ok (w, s1) =>
      match evalValues h s1 rest with
      | .error e => .error e
      | .ok (ws, s2) => .ok (w :: ws, s2)

end

/-- The host with empty dispatch tables: both capabilities always answer
`Err(Error::InvalidFunction)`, exactly as the closures used by the
`eval` unit tests for an empty function table.  Its wrapped-error type
is `Empty` since no host error can ever be produced. -/
def emptyHost : Host Unit Empty :=
  ⟨fun _ _ => .error .InvalidFunction, fun _ _ => .error .InvalidFunction⟩

/-- A host whose value-function table contains only the identity function
under the name `call` (the `eval_call` unit-test host). -/
def idHost : Host Unit Empty :=
  ⟨fun s c => if c.function = "call" then .ok (c.value, s) else .error .InvalidFunction,
   fun _ _ => .error .InvalidFunction⟩

/-- A host whose record-function table maps the name `drop` to a function
returning `None` (the record-call filtering example of the spec). -/
def dropHost : Host Unit Empty :=
  ⟨fun _ _ => .error .InvalidFunction,
   fun s c => if c.function = "drop" then .ok (none, s) else .error .InvalidFunction⟩

mutual

/-- `true` iff the tree contains a `Call` node anywhere, counting both
value-form `Value.Call` nodes and record-form call entries of an
`ObjectWithCalls`. -/
def containsCall : Value → Bool
  | .Number _ => false
  | .Float _ => false
  | .String _ => false
  | .Object rs => containsCallRecords rs
  | .ObjectWithCalls es => containsCallEntries es
  | .Array vs => containsCallList vs
  | .Call _ => true
  | .Typed (.mk _ v) => containsCall v

def containsCallRecords : List Record → Bool
  | [] => false
  | .mk _ v :: rest => containsCall v || containsCallRecords rest

def containsCallEntries : List RecordOrCall → Bool
  | [] => false
  | .record (.mk _ v) :: rest => containsCall v || containsCallEntries rest
  | .call _ :: _ => true

def containsCallList : List Value → Bool
  | [] => false
  | v :: rest => containsCall v || containsCallList rest

end

mutual

/-- `true` iff the tree is built from `Number`, `Float`, `String`,
`Array` and plain `Object` nodes only (no `Call`, `ObjectWithCalls` or
`Typed` anywhere). -/
def literalOnly : Value → Bool
  | .Number _ => true
  | .Float _ => true
  | .String _ => true
  | .Object rs => literalRecords rs
  | .Array vs => literalList vs
  | .ObjectWithCalls _ => false
  | .Call _ => false
  | .Typed _ => false

def literalRecords : List Record → Bool
  | [] => true
  | .mk _ v :: rest => literalOnly v && literalRecords rest

def literalList : List Value → Bool
  | [] => true
  | v :: rest => literalOnly v && literalList rest

end

mutual

/-- `true` iff every plain-`Object` subtree of the value is entirely
call-free (the condition under which the evaluator's clone-without-
recursing treatment of `Object` cannot smuggle a `Call` into its
output). -/
def objectsCallFree : Value → Bool
  | .Number _ => true
  | .Float _ => true
  | .String _ => true
  | .Object rs => !containsCallRecords rs
  | .ObjectWithCalls es => objectsCallFreeEntries es
  | .Array vs => objectsCallFreeList vs
  | .Call (.mk _ v) => objectsCallFree v
  | .Typed (.mk _ v) => objectsCallFree v

def objectsCallFreeEntries : List RecordOrCall → Bool
  | [] => true
  | .record (.mk _ v) :: rest => objectsCallFree v && objectsCallFreeEntries rest
  | .call (.mk _ v) :: rest => objectsCallFree v && objectsCallFreeEntries rest

def objectsCallFreeList : List Value → Bool
  | [] => true
  | v :: rest => objectsCallFree v && objectsCallFreeList rest

end

/-- A host is call-free when every value it successfully returns through
either capability contains no `Call` node. -/
def CallFreeHost (h : Host σ ε) : Prop :=
  (∀ s c v s', h.vf s c = .ok (v, s') → containsCall v = false) ∧
    (∀ s c r s', h.rf s c = .ok (some r, s') → containsCall r.value = false)

/-! ## Theorems -/

/-- C1 (counterexample).  The claim asserts that leading zeros of the
fractional digit run count toward the digit count `d`, so that parsing
`"4.03"` yields `Float(4.03)`.  In fact the lexer reduces the run `03`
to the numeric value `3` and the parser computes the digit count from
that value (`checked_ilog10`), so the pipeline yields `Float(4.3)`,
which differs from `4.03`. -/
theorem float_leading_zero_lost :
    (tokenize "4.03").bind (fun ts => parse_value (4 * ts.length + 16) ts) =
      some (.ok (.Float (floatValue 4 3),
        [⟨.Number 3, ⟨2, 3⟩⟩, ⟨.EndOfInput, ⟨4, 4⟩⟩])) ∧
    floatValue 4 3 = 43 / 10 ∧ (43 / 10 : Rat) ≠ 403 / 100 := by
  refine ⟨rfl, ?_, by norm_num⟩
  have h : fracDecimals 3 = 1 := by decide
  rw [floatValue, h]
  norm_num

/-- C1 (amended).  Float construction: for a number token `n`, a dot and
a number token `m`, the parser produces `Float(n + m * 10^-d)` where
`d` is the decimal digit count of the numeric value `m`
(`checked_ilog10(m).unwrap_or(0) + 1`) — leading zeros typed in the
source do not contribute, having been discarded by the lexer.  The
fractional token is left unconsumed. -/
theorem float_construction_value_digits (fuel : Nat) (n m : Int)
    (p1 p2 p3 : FilePos) (rest : List Token) (_hn : 0 ≤ n) (_hm : 0 ≤ m) :
    parse_value (fuel + 1)
        (⟨.Number n, p1⟩ :: ⟨.Dot, p2⟩ :: ⟨.Number m, p3⟩ :: rest) =
      some (.ok (.Float (floatValue n m), ⟨.Number m, p3⟩ :: rest)) := by
  rfl

/-- Witness for C1 (amended) at `n = 4`, `m = 3` (the token form of
`"4.03"`): the result is `Float(4 + 3/10)`. -/
theorem float_construction_value_digits_witness :
    parse_value 1 [⟨.Number 4, ⟨0, 1⟩⟩, ⟨.Dot, ⟨1, 2⟩⟩, ⟨.Number 3, ⟨2, 3⟩⟩,
        ⟨.EndOfInput, ⟨4, 4⟩⟩] =
      some (.ok (.Float (floatValue 4 3),
        [⟨.Number 3, ⟨2, 3⟩⟩, ⟨.EndOfInput, ⟨4, 4⟩⟩])) :=
  float_construction_value_digits 0 4 3 ⟨0, 1⟩ ⟨1, 2⟩ ⟨2, 3⟩
    [⟨.EndOfInput, ⟨4, 4⟩⟩] (by decide) (by decide)

/-- C2.  Stateful meta-directive ordering: evaluating an object body
splits around any point: the earlier entries `xs` are evaluated from
the incoming state alone (so later entries never retroactively affect
them), and the later entries `ys` are evaluated starting from exactly
the state produced by `xs` (so any dispatch-state mutation performed by
an earlier record-call is visible to every subsequent sibling, and —
since `evalEntries` passes that state into the recursive `eval` of each
entry — to every descendant evaluated later in the same pass). -/
theorem stateful_sibling_threading (h : Host σ ε) (s : σ)
    (xs ys : List RecordOrCall) :
    evalEntries h s (xs ++ ys) =
      match evalEntries h s xs with
      | .error e => .error e
      | .ok (rs, s1) =>
        match evalEntries h s1 ys with
        | .error e => .error e
        | .ok (rs', s2) => .ok (rs ++ rs', s2) := by
  induction xs generalizing s with
  | nil =>
    simp only [List.nil_append, evalEntries]
    cases evalEntries h s ys with
    | error e => rfl
    | ok p => rfl
  | cons e xs ih =>
    cases e with
    | record r =>
      cases r with
      | mk id v =>
        simp only [List.cons_append, evalEntries, List.append_eq]
        cases eval h s v with
        | error e => rfl
        | ok p =>
          cases p with
          | mk w s1 =>
            dsimp only
            rw [ih]
            cases evalEntries h s1 xs with
            | error e => rfl
            | ok q =>
              cases q with
              | mk rs s2 =>
                dsimp only
                cases evalEntries h s2 ys with
                | error e => rfl
                | ok r2 => rfl
    | call c =>
      cases c with
      | mk f v =>
        simp only [List.cons_append, evalEntries, List.append_eq]
        cases eval h s v with
        | error e => rfl
        | ok p =>
          cases p with
          | mk w s1 =>
            dsimp only
            cases h.rf s1 (.mk f w) with
            | error e => rfl
            | ok q =>
              cases q with
              | mk opt s2 =>
                cases opt with
                | none => dsimp only; rw [ih]
                | some r =>
                  dsimp only
                  rw [ih]
                  cases evalEntries h s2 xs with
                  | error e => rfl
                  | ok q2 =>
                    cases q2 with
                    | mk rs s3 =>
                      dsimp only
                      cases evalEntries h s3 ys with
                      | error e => rfl
                      | ok r2 => rfl

/-- C3.  Record-call filtering: for a record-form call entry the argument
is evaluated first and the record capability is then invoked on the
result (in the state the argument evaluation produced); a returned
`Some(record)` is spliced into the output at this position, a returned
`None` drops the entry entirely, and consequently a successfully
evaluated object body never has more output records than input
entries. -/
theorem record_call_filtering :
    (∀ (σ ε : Type) (h : Host σ ε) (s : σ) (f : String) (a : Value)
        (rest : List RecordOrCall) (v : Value) (s1 s2 : σ) (r : Record),
        eval h s a = .ok (v, s1) → h.rf s1 (.mk f v) = .ok (some r, s2) →
        evalEntries h s (.call (.mk f a) :: rest) =
          match evalEntries h s2 rest with
          | .error e => .error e
          | .ok (rs, s3) => .ok (r :: rs, s3)) ∧
    (∀ (σ ε : Type) (h : Host σ ε) (s : σ) (f : String) (a : Value)
        (rest : List RecordOrCall) (v : Value) (s1 s2 : σ),
        eval h s a = .ok (v, s1) → h.rf s1 (.mk f v) = .ok (none, s2) →
        evalEntries h s (.call (.mk f a) :: rest) = evalEntries h s2 rest) ∧
    (∀ (σ ε : Type) (h : Host σ ε) (s : σ) (entries : List RecordOrCall)
        (rs : List Record) (s' : σ),
        evalEntries h s entries = .ok (rs, s') → rs.length ≤ entries.length) := by
  refine ⟨?_, ?_, ?_⟩
  · intro σ ε h s f a rest v s1 s2 r hv hrf
    simp only [evalEntries, hv, hrf]
  · intro σ ε h s f a rest v s1 s2 hv hrf
    simp only [evalEntries, hv, hrf]
  · intro σ ε h s entries
    induction entries generalizing s with
    | nil =>
      intro rs s' he
      simp only [evalEntries] at he
      cases he
      simp
    | cons e rest ih =>
      intro rs s' he
      cases e with
      | record r0 =>
        cases r0 with
        | mk id v =>
          simp only [evalEntries] at he
          cases hv : eval h s v with
          | error e0 => rw [hv] at he; cases he
          | ok p =>
            cases p with
            | mk w s1 =>
              rw [hv] at he
              dsimp only at he
              cases hr : evalEntries h s1 rest with
              | error e0 => rw [hr] at he; cases he
              | ok q =>
                cases q with
                | mk rs0 s2 =>
                  rw [hr] at he
                  dsimp only at he
                  cases he
                  have := ih s1 rs0 _ hr
                  simp [List.length_cons]
                  omega
      | call c0 =>
        cases c0 with
        | mk f v =>
          simp only [evalEntries] at he
          cases hv : eval h s v with
          | error e0 => rw [hv] at he; cases he
          | ok p =>
            cases p with
            | mk w s1 =>
              rw [hv] at he
              dsimp only at he
              cases hr : h.rf s1 (.mk f w) with
              | error e0 => rw [hr] at he; cases he
              | ok q =>
                cases q with
                | mk opt s2 =>
                  rw [hr] at he
                  cases opt with
                  | none =>
                    dsimp only at he
                    have := ih s2 rs s' he
                    simp
                    omega
                  | some r =>
                    dsimp only at he
                    cases he2 : evalEntries h s2 rest with
                    | error e0 => rw [he2] at he; cases he
                    | ok q2 =>
                      cases q2 with
                      | mk rs0 s3 =>
                        rw [he2] at he
                        dsimp only at he
                        cases he
                        have := ih s2 rs0 _ he2
                        simp
                        omega

/-- Witness for C3 at the spec's example: with `drop ↦ None`, evaluating
the body of `{ #drop 1; kept = 2 }` drops the directive entry and keeps
the plain record, so the output has one record for two input entries. -/
theorem record_call_filtering_witness :
    (evalEntries dropHost ()
        [.call (.mk "drop" (.Number 1)), .record (.mk "kept" (.Number 2))] =
      evalEntries dropHost () [.record (.mk "kept" (.Number 2))]) ∧
    (evalEntries dropHost () [.record (.mk "kept" (.Number 2))] =
      .ok ([.mk "kept" (.Number 2)], ())) ∧
    ([Record.mk "kept" (.Number 2)] : List Record).length ≤
      ([RecordOrCall.call (.mk "drop" (.Number 1)),
        .record (.mk "kept" (.Number 2))] : List RecordOrCall).length :=
  ⟨record_call_filtering.2.1 Unit Empty dropHost () "drop" (.Number 1)
      [.record (.mk "kept" (.Number 2))] (.Number 1) () () rfl rfl,
   rfl,
   record_call_filtering.2.2 Unit Empty dropHost ()
      [.call (.mk "drop" (.Number 1)), .record (.mk "kept" (.Number 2))]
      [.mk "kept" (.Number 2)] () rfl⟩

mutual

/-- Helper: evaluation of literal-only trees is the identity, for any
host (the dispatch capabilities are never reached). -/
theorem evalLiteralAux (h : Host σ ε) (s : σ) :
    (v : Value) → literalOnly v = true → eval h s v = .ok (v, s)
  | .Number _, _ => rfl
  | .Float _, _ => rfl
  | .String _, _ => rfl
  | .Object _, _ => rfl
  | .Array vs, hv => by
    have hl : literalList vs = true := by simpa [literalOnly] using hv
    have := evalLiteralListAux h s vs hl
    simp [eval, this]
  | .ObjectWithCalls es, hv => by simp [literalOnly] at hv
  | .Call c, hv => by simp [literalOnly] at hv
  | .Typed t, hv => by simp [literalOnly] at hv

/-- Helper: list version of `evalLiteralAux` for array elements. -/
theorem evalLiteralListAux (h : Host σ ε) (s : σ) :
    (vs : List Value) → literalList vs = true → evalValues h s vs = .ok (vs, s)
  | [], _ => rfl
  | v :: rest, hv => by
    have h1 : literalOnly v = true ∧ literalList rest = true := by
      simpa [literalList, Bool.and_eq_true] using hv
    have e1 := evalLiteralAux h s v h1.1
    have e2 := evalLiteralListAux h s rest h1.2
    simp [evalValues, e1, e2]

end

/-- C7.  Round-trip on call-free trees: a tree built only from `Number`,
`Float`, `String`, `Array` and `Object` nodes evaluates successfully
under the empty dispatch tables to a structurally identical tree (in
particular scalars are returned unchanged). -/
theorem literal_round_trip (v : Value) (hv : literalOnly v = true) :
    eval emptyHost () v = .ok (v, ()) :=
  evalLiteralAux emptyHost () v hv

/-- Witness for C7 at a tree exercising every allowed node shape. -/
theorem literal_round_trip_witness :
    eval emptyHost ()
        (.Array [.Number 1, .Float 5, .String "a",
          .Object [.mk "k" (.Number 3)]]) =
      .ok (.Array [.Number 1, .Float 5, .String "a",
        .Object [.mk "k" (.Number 3)]], ()) :=
  literal_round_trip
    (.Array [.Number 1, .Float 5, .String "a", .Object [.mk "k" (.Number 3)]])
    (by rfl)

/-- C4 (counterexample).  A `Call` nested inside an already-"evaluated"
plain `Object` survives evaluation: the evaluator clones the `Object`
without recursing, so evaluation succeeds yet the returned tree still
contains a `Call` node, refuting the unconditional no-`Call`
invariant. -/
theorem call_survives_plain_object :
    eval emptyHost () (.Object [.mk "a" (.Call (.mk "f" (.Number 1)))]) =
      .ok (.Object [.mk "a" (.Call (.mk "f" (.Number 1)))], ()) ∧
    containsCall (.Object [.mk "a" (.Call (.mk "f" (.Number 1)))]) = true :=
  ⟨rfl, rfl⟩

/-- Helper: `containsCallRecords` unfolded on an abstract head record. -/
theorem containsCallRecords_cons (r : Record) (rs : List Record) :
    containsCallRecords (r :: rs) =
      (containsCall r.value || containsCallRecords rs) := by
  cases r; rfl

mutual

/-- Helper for C4 (amended): under a call-free host, successful
evaluation of a value whose plain-`Object` subtrees are call-free
returns a call-free value. -/
theorem evalNoCallAux (h : Host σ ε) (hh : CallFreeHost h) :
    (v : Value) → objectsCallFree v = true →
      ∀ s w s', eval h s v = .ok (w, s') → containsCall w = false
  | .Number n, _ => by
    intro s w s' he
    simp only [eval] at he
    cases he
    rfl
  | .Float q, _ => by
    intro s w s' he
    simp only [eval] at he
    cases he
    rfl
  | .String st, _ => by
    intro s w s' he
    simp only [eval] at he
    cases he
    rfl
  | .Object rs, hv => by
    intro s w s' he
    simp only [eval] at he
    cases he
    simpa [objectsCallFree, containsCall] using hv
  | .Array vs, hv => by
    intro s w s' he
    simp only [eval] at he
    cases hev : evalValues h s vs with
    | error e => rw [hev] at he; cases he
    | ok p =>
      cases p with
      | mk ws s1 =>
        rw [hev] at he
        dsimp only at he
        cases he
        have hl : objectsCallFreeList vs = true := by
          simpa [objectsCallFree] using hv
        have := evalNoCallListAux h hh vs hl s ws _ hev
        simpa [containsCall] using this
  | .ObjectWithCalls es, hv => by
    intro s w s' he
    simp only [eval] at he
    cases hev : evalEntries h s es with
    | error e => rw [hev] at he; cases he
    | ok p =>
      cases p with
      | mk rs s1 =>
        rw [hev] at he
        dsimp only at he
        cases he
        have hl : objectsCallFreeEntries es = true := by
          simpa [objectsCallFree] using hv
        have := evalNoCallEntriesAux h hh es hl s rs _ hev
        simpa [containsCall] using this
  | .Call c, hv => by
    cases c with
    | mk f v =>
      intro s w s' he
      simp only [eval] at he
      cases hev : eval h s v with
      | error e => rw [hev] at he; cases he
      | ok p =>
        cases p with
        | mk w1 s1 =>
          rw [hev] at he
          dsimp only at he
          exact hh.1 s1 (.mk f w1) w s' he
  | .Typed t, hv => by
    cases t with
    | mk kind v =>
      intro s w s' he
      simp only [eval] at he
      cases hev : eval h s v with
      | error e => rw [hev] at he; cases he
      | ok p =>
        cases p with
        | mk w1 s1 =>
          rw [hev] at he
          dsimp only at he
          cases he
          have hv' : objectsCallFree v = true := by
            simpa [objectsCallFree] using hv
          have := evalNoCallAux h hh v hv' s w1 _ hev
          simpa [containsCall] using this

/-- Helper for C4 (amended): object-body version. -/
theorem evalNoCallEntriesAux (h : Host σ ε) (hh : CallFreeHost h) :
    (es : List RecordOrCall) → objectsCallFreeEntries es = true →
      ∀ s rs s', evalEntries h s es = .ok (rs, s') →
        containsCallRecords rs = false
  | [], _ => by
    intro s rs s' he
    simp only [evalEntries] at he
    cases he
    rfl
  | .record (.mk id v) :: rest, hv => by
    intro s rs s' he
    have h1 : objectsCallFree v = true ∧ objectsCallFreeEntries rest = true := by
      simpa [objectsCallFreeEntries, Bool.and_eq_true] using hv
    simp only [evalEntries] at he
    cases hev : eval h s v with
    | error e => rw [hev] at he; cases he
    | ok p =>
      cases p with
      | mk w s1 =>
        rw [hev] at he
        dsimp only at he
        cases her : evalEntries h s1 rest with
        | error e => rw [her] at he; cases he
        | ok q =>
          cases q with
          | mk rs0 s2 =>
            rw [her] at he
            dsimp only at he
            cases he
            have c1 := evalNoCallAux h hh v h1.1 s w _ hev
            have c2 := evalNoCallEntriesAux h hh rest h1.2 s1 rs0 _ her
            simp [containsCallRecords, c1, c2]
  | .call (.mk f v) :: rest, hv => by
    intro s rs s' he
    have h1 : objectsCallFree v = true ∧ objectsCallFreeEntries rest = true := by
      simpa [objectsCallFreeEntries, Bool.and_eq_true] using hv
    simp only [evalEntries] at he
    cases hev : eval h s v with
    | error e => rw [hev] at he; cases he
    | ok p =>
      cases p with
      | mk w s1 =>
        rw [hev] at he
        dsimp only at he
        cases hrf : h.rf s1 (.mk f w) with
        | error e => rw [hrf] at he; cases he
        | ok q =>
          cases q with
          | mk opt s2 =>
            rw [hrf] at he
            cases opt with
            | none =>
              dsimp only at he
              exact evalNoCallEntriesAux h hh rest h1.2 s2 rs s' he
            | some r =>
              dsimp only at he
              cases her : evalEntries h s2 rest with
              | error e => rw [her] at he; cases he
              | ok q2 =>
                cases q2 with
                | mk rs0 s3 =>
                  rw [her] at he
                  dsimp only at he
                  cases he
                  have c1 := hh.2 s1 (.mk f w) r s2 hrf
                  have c2 := evalNoCallEntriesAux h hh rest h1.2 s2 rs0 _ her
                  rw [containsCallRecords_cons, c1, c2]
                  rfl

/-- Helper for C4 (amended): array-element version. -/
theorem evalNoCallListAux (h : Host σ ε) (hh : CallFreeHost h) :
    (vs : List Value) → objectsCallFreeList vs = true →
      ∀ s ws s', evalValues h s vs = .ok (ws, s') → containsCallList ws = false
  | [], _ => by
    intro s ws s' he
    simp only [evalValues] at he
    cases he
    rfl
  | v :: rest, hv => by
    intro s ws s' he
    have h1 : objectsCallFree v = true ∧ objectsCallFreeList rest = true := by
      simpa [objectsCallFreeList, Bool.and_eq_true] using hv
    simp only [evalValues] at he
    cases hev : eval h s v with
    | error e => rw [hev] at he; cases he
    | ok p =>
      cases p with
      | mk w s1 =>
        rw [hev] at he
        dsimp only at he
        cases her : evalValues h s1 rest with
        | error e => rw [her] at he; cases he
        | ok q =>
          cases q with
          | mk ws0 s2 =>
            rw [her] at he
            dsimp only at he
            cases he
            have c1 := evalNoCallAux h hh v h1.1 s w _ hev
            have c2 := evalNoCallListAux h hh rest h1.2 s1 ws0 _ her
            simp [containsCallList, c1, c2]

end

/-- C4 (amended).  No-`Call` invariant, restricted as the code forces:
for every input tree whose plain-`Object` subtrees are call-free,
evaluated under a host whose successfully returned values are
call-free, a successful evaluation returns a tree with no `Call` node
anywhere. -/
theorem no_call_invariant_amended (h : Host σ ε) (hh : CallFreeHost h)
    (v : Value) (hv : objectsCallFree v = true) (s : σ) (w : Value) (s' : σ)
    (he : eval h s v = .ok (w, s')) : containsCall w = false :=
  evalNoCallAux h hh v hv s w s' he

/-- Witness for C4 (amended) at a parser-shaped input under the empty
host: the evaluated object is call-free. -/
theorem no_call_invariant_amended_witness :
    containsCall (.Object [.mk "x" (.Number 1)]) = false :=
  no_call_invariant_amended emptyHost
    ⟨(fun _ _ _ _ hv => nomatch hv), (fun _ _ _ _ hr => nomatch hr)⟩
    (.ObjectWithCalls [.record (.mk "x" (.Number 1))]) (by rfl) ()
    (.Object [.mk "x" (.Number 1)]) () (by rfl)

/-- C5 (code bug).  The lexer is not total: `tokenize "0"` panics
(`i32::ilog10` of the accumulated value `0` while computing the token
span at end of input), any unrecognized character such as `?` hits the
`unimplemented!` catch-all, and an unterminated string produces the
default token — whose kind is `EndOfInput` — so the token sequence
contains an `EndOfInput` token that is not the final one. -/
theorem lexer_panics_and_spurious_end :
    tokenize "0" = none ∧ tokenize "?" = none ∧
      tokenize "\x22a" =
        some [⟨.EndOfInput, ⟨0, 0⟩⟩, ⟨.EndOfInput, ⟨2, 2⟩⟩] :=
  ⟨rfl, rfl, rfl⟩

/-- C6 (counterexample).  The `eval::Error::InvalidFunction` variant
carries no payload, so the error produced for the missing name
`missing` is the very same value as the error produced for the distinct
missing name `other` — the error cannot carry the missing name. -/
theorem invalid_function_carries_no_name :
    eval emptyHost () (.Call (.mk "missing" (.Number 1))) =
      .error .InvalidFunction ∧
    eval emptyHost () (.Call (.mk "other" (.Number 1))) =
      .error .InvalidFunction ∧
    "missing" ≠ "other" :=
  ⟨rfl, rfl, by decide⟩

/-- C6 (amended).  Unknown-function error: with the empty dispatch
tables, evaluating any value-form call fails with the (payload-free)
`InvalidFunction` error — it never yields a value and returns no
partial result. -/
theorem unknown_function_invalid_function (name : String) (arg : Value)
    (s : Unit) :
    eval emptyHost s (.Call (.mk name arg)) = .error .InvalidFunction := by
  simp only [eval]
  cases hv : eval emptyHost s arg with
  | error e =>
    cases e with
    | InvalidFunction => rfl
    | Eval x => exact x.elim
  | ok p => cases p; rfl

/-- C8.  Array order and length preservation: a successfully evaluated
element list has exactly the length of the input list; end to end, the
text `[1 "a" 2]` lexes and parses to the three-element array in source
order, and evaluating that array returns the same three elements in the
same order. -/
theorem array_order_and_length :
    (∀ (σ ε : Type) (h : Host σ ε) (s : σ) (vs ws : List Value) (s' : σ),
        evalValues h s vs = .ok (ws, s') → ws.length = vs.length) ∧
    ((tokenize "[1 \x22a\x22 2]").bind
        (fun ts => parse_value (4 * ts.length + 16) ts) =
      some (.ok (.Array [.Number 1, .String "a", .Number 2],
        [⟨.RightBracket, ⟨8, 9⟩⟩, ⟨.EndOfInput, ⟨9, 9⟩⟩]))) ∧
    (eval emptyHost () (.Array [.Number 1, .String "a", .Number 2]) =
      .ok (.Array [.Number 1, .String "a", .Number 2], ())) := by
  refine ⟨?_, rfl, rfl⟩
  intro σ ε h s vs
  induction vs generalizing s with
  | nil =>
    intro ws s' he
    simp only [evalValues] at he
    cases he
    rfl
  | cons v rest ih =>
    intro ws s' he
    simp only [evalValues] at he
    cases hev : eval h s v with
    | error e => rw [hev] at he; cases he
    | ok p =>
      cases p with
      | mk w s1 =>
        rw [hev] at he
        dsimp only at he
        cases her : evalValues h s1 rest with
        | error e => rw [her] at he; cases he
        | ok q =>
          cases q with
          | mk ws0 s2 =>
            rw [her] at he
            dsimp only at he
            cases he
            have := ih s1 ws0 _ her
            simp [this]

/-- Witness for C8's length property on a list that actually changes
under evaluation (a call resolved by the identity host). -/
theorem array_order_and_length_witness :
    ([Value.Number 7, .Number 2] : List Value).length =
      ([Value.Call (.mk "call" (.Number 7)), .Number 2] : List Value).length :=
  array_order_and_length.1 Unit Empty idHost ()
    [.Call (.mk "call" (.Number 7)), .Number 2] [.Number 7, .Number 2] () rfl

/-- C9 (counterexample).  A top-level document whose last record is not
followed by a separator (`"x = 2"`), and a nested object whose last
record is immediately followed by `}` (`"{x = 2}"`), both FAIL with the
`EndOfInput` parse error: the object loop unconditionally consumes one
token after each entry, eating the terminator. -/
theorem object_termination_counterexample :
    (tokenize "x = 2").bind (fun ts => parse ts) =
      some (.error ⟨.EndOfInput, ⟨0, 0⟩⟩) ∧
    (tokenize "\x7bx = 2\x7d").bind
        (fun ts => parse_value (4 * ts.length + 16) ts) =
      some (.error ⟨.EndOfInput, ⟨0, 0⟩⟩) :=
  ⟨rfl, rfl⟩

/-- C9 (amended).  Object parsing accepts interleaved record and
`#`-prefixed call entries and terminates at a matching `}` (nested) or
at end-of-input (top level), but the terminator is recognized only when
peeked at an entry boundary, and after each entry the loop
unconditionally consumes one token.  An entry whose value's final token
is consumed by `parse_value` (an integer) must therefore be followed by
a separator for the terminator to be seen — `x = 2;`, `x = 2` plus
newline, a `;`-separated interleaving of records and `#`-calls, and the
nested `{x = 2;}` all parse — whereas an entry whose value's final
token is left unconsumed (string, float, nested object, array) parses
with no trailing separator at all, because that unconsumed token is
eaten in place of a separator: `x = "a"`, `x = 4.2`, `y = {a = 1;}` and
`x = [1]` all parse at top level. -/
theorem object_termination_amended :
    ((tokenize "x = 2;").bind (fun ts => parse ts) =
      some (.ok (.ObjectWithCalls [.record (.mk "x" (.Number 2))]))) ∧
    ((tokenize "x = 2\n").bind (fun ts => parse ts) =
      some (.ok (.ObjectWithCalls [.record (.mk "x" (.Number 2))]))) ∧
    ((tokenize "a = 1;#f 2;b = 3;").bind (fun ts => parse ts) =
      some (.ok (.ObjectWithCalls
        [.record (.mk "a" (.Number 1)), .call (.mk "f" (.Number 2)),
         .record (.mk "b" (.Number 3))]))) ∧
    ((tokenize "\x7bx = 2;\x7d").bind
        (fun ts => parse_value (4 * ts.length + 16) ts) =
      some (.ok (.ObjectWithCalls [.record (.mk "x" (.Number 2))],
        [⟨.RightBrace, ⟨7, 8⟩⟩, ⟨.EndOfInput, ⟨8, 8⟩⟩]))) ∧
    ((tokenize "x = \x22a\x22").bind (fun ts => parse ts) =
      some (.ok (.ObjectWithCalls [.record (.mk "x" (.String "a"))]))) ∧
    ((tokenize "x = 4.2").bind (fun ts => parse ts) =
      some (.ok (.ObjectWithCalls
        [.record (.mk "x" (.Float (floatValue 4 2)))]))) ∧
    ((tokenize "y = \x7ba = 1;\x7d").bind (fun ts => parse ts) =
      some (.ok (.ObjectWithCalls
        [.record (.mk "y"
          (.ObjectWithCalls [.record (.mk "a" (.Number 1))]))]))) ∧
    ((tokenize "x = [1]").bind (fun ts => parse ts) =
      some (.ok (.ObjectWithCalls [.record (.mk "x" (.Array [.Number 1]))]))) :=
  ⟨rfl, rfl, rfl, rfl, rfl, rfl, rfl, rfl⟩

/-- C10.  Evaluation is the identity on the already-evaluated plain
`Object` variant: the records are returned as a structural copy without
recursing into their values (so any `Call` nested below survives). -/
theorem object_clone_identity (h : Host σ ε) (s : σ) (rs : List Record) :
    eval h s (.Object rs) = .ok (.Object rs, s) := rfl

end Alt
